import Mathlib

/-!
Verification development for the `elmirror` package-mirroring program
(`elmirror.py`).  The Python source is shallowly embedded: pure string and
path manipulations become Lean functions, and the effectful mirroring
pipeline becomes a writer/except monad `PyM` that records the filesystem,
subprocess and network operations a run would perform, over an oracle
environment `Env` describing the outside world (filesystem contents, git
subprocess outcomes, HTTP status codes, JSON parsing results).
-/

namespace Elmirror

/-! ### POSIX path helpers (`os.path`) -/

/-- `s.rstrip('/')`: drop all trailing slashes. -/
def pyRstripSlash (s : String) : String :=
  String.mk ((s.data.reverse.dropWhile (fun c => c == '/')).reverse)

/-- Longest common prefix of two character lists
(`os.path.commonprefix` on a two-element list). -/
def commonPrefixList : List Char → List Char → List Char
  | a :: as, b :: bs => if a = b then a :: commonPrefixList as bs else []
  | _, _ => []

/-- `os.path.commonprefix([a, b])`. -/
def commonPrefixStr (a b : String) : String :=
  String.mk (commonPrefixList a.data b.data)

/-- Split a character list on a separator character (Python `str.split(sep)`
restricted to one-character separators; also the semantics of
`String.splitOn` for such separators). -/
def splitOnChar (sep : Char) : List Char → List (List Char)
  | [] => [[]]
  | c :: cs =>
    let r := splitOnChar sep cs
    if c = sep then [] :: r
    else
      match r with
      | h :: t => (c :: h) :: t
      | [] => [[c]]

/-- String wrapper for `splitOnChar`. -/
def pySplit (sep : Char) (s : String) : List String :=
  (splitOnChar sep s.data).map String.mk

/-- `os.path.join(p, b)` for a single extra component
(mirrors posixpath.join's treatment of separators and absolute parts). -/
def joinOne (p b : String) : String :=
  if b.data.head? = some '/' then b
  else if p = "" || p.data.getLast? = some '/' then p ++ b
  else p ++ "/" ++ b

/-- One step of posixpath.normpath's component loop.  The accumulator holds
the `new_comps` list in reverse (head = most recently appended). -/
def normStep (initialSlashes : Bool) (acc : List String) (comp : String) : List String :=
  if comp = "" || comp = "." then acc
  else if comp ≠ ".." || (!initialSlashes && acc = []) || (acc ≠ [] && acc.head? = some "..") then
    comp :: acc
  else
    match acc with
    | [] => []
    | _ :: t => t

/-- The number of initial slashes posixpath.normpath preserves: one slash
(or three and more) collapse to one, exactly two stay two. -/
def leadSlashes : List Char → Nat
  | '/' :: '/' :: '/' :: _ => 1
  | '/' :: '/' :: _ => 2
  | '/' :: _ => 1
  | _ => 0

/-- posixpath.normpath. -/
def normpath (path : String) : String :=
  if path = "" then "."
  else
    let slashes := leadSlashes path.data
    let comps := pySplit '/' path
    let newComps := (comps.foldl (normStep (slashes ≠ 0)) []).reverse
    let joined := String.intercalate "/" newComps
    let out := String.mk (List.replicate slashes '/') ++ joined
    if out = "" then "." else out

/-- `os.path.abspath` relative to a current working directory `cwd`. -/
def abspath (cwd path : String) : String :=
  normpath (if path.data.head? = some '/' then path else joinOne cwd path)

/-- The spec's path-confinement predicate: `p` is a strict descendant of the
directory denoted by `root` (the root with trailing slashes ignored,
followed by a separator, is a proper prefix of `p`). -/
def isStrictDescendant (root p : String) : Bool :=
  let r := pyRstripSlash root
  ((r.data ++ ['/']).isPrefixOf p.data) && (pyRstripSlash p ≠ r)

/-- Does a string end with a `/` (used to state how the configured
`PACKAGE_ROOT` is written)? -/
def endsWithSlash (s : String) : Bool :=
  s.data.getLast? == some '/'

/-! ### Name validation (`REPO_EXPR`, `is_valid_repo_name`) -/

/-- Characters allowed anywhere in the user-name part: `[a-zA-Z0-9-]`. -/
def isOwnerMid (c : Char) : Bool := c.isAlphanum || c == '-'

/-- Characters allowed as the first repo-path character: `[a-zA-Z0-9_-]`. -/
def isPathFirst (c : Char) : Bool := c.isAlphanum || c == '_' || c == '-'

/-- Characters allowed in the rest of the repo path: `[a-zA-Z0-9_.-]`. -/
def isPathRest (c : Char) : Bool := isPathFirst c || c == '.'

/-- `([a-zA-Z0-9][a-zA-Z0-9-]*[a-zA-Z0-9])`: all characters alphanumeric or
hyphen, first and last alphanumeric, length at least two. -/
def ownerOK (l : List Char) : Bool :=
  decide (2 ≤ l.length) &&
  (match l.head? with | some c => c.isAlphanum | none => false) &&
  (match l.getLast? with | some c => c.isAlphanum | none => false) &&
  l.all isOwnerMid

/-- `([a-zA-Z0-9_-][a-zA-Z0-9_.-]*)`. -/
def pathOK : List Char → Bool
  | [] => false
  | c :: cs => isPathFirst c && cs.all isPathRest

/-- Split a character list at its unique `'/'`, if it has exactly one.
Both regex character classes exclude `'/'`, so `REPO_EXPR` can match only
strings of this shape, split at that slash. -/
def splitSlash : List Char → Option (List Char × List Char)
  | [] => none
  | c :: cs =>
    if c = '/' then
      if cs.contains '/' then none else some ([], cs)
    else
      match splitSlash cs with
      | some (o, p) => some (c :: o, p)
      | none => none

/-- Python's `$` anchor matches at the end of the string or just before a
single trailing newline; since no class in `REPO_EXPR` (nor in the semver
pattern) admits `'\n'`, a full match exists iff the pattern matches the
string with one trailing newline removed. -/
def stripNL (l : List Char) : List Char :=
  if l.getLast? = some '\n' then l.dropLast else l

/-- Core of `REPO_EXPR` against a whole character list. -/
def reMatchCore (l : List Char) : Bool :=
  match splitSlash l with
  | some (o, p) => ownerOK o && pathOK p
  | none => false

/-- `is_valid_repo_name` / `REPO_EXPR.match`. -/
def is_valid_repo_name (s : String) : Bool :=
  reMatchCore (stripNL s.data)

/-- The validator grammar exactly as the spec words it: `owner/path` where
`path` may consist of alphanumerics, underscores, hyphens, or dots
(anywhere, including the first character).  Used to compare the spec's
claim with the implementation. -/
def specValidName (s : String) : Bool :=
  match splitSlash s.data with
  | some (o, p) => ownerOK o && (p ≠ [] && p.all isPathRest)
  | none => false

/-- The user-name grammar as a predicate: length at least two, every
character alphanumeric or hyphen, first and last alphanumeric. -/
def OwnerGrammar (o : List Char) : Prop :=
  2 ≤ o.length ∧ (∀ c ∈ o, isOwnerMid c = true) ∧
  (∀ c, o.head? = some c → c.isAlphanum = true) ∧
  (∀ c, o.getLast? = some c → c.isAlphanum = true)

/-- The repo-path grammar as a predicate: nonempty, first character
alphanumeric, underscore or hyphen, remaining characters may also be
dots. -/
def PathGrammar (p : List Char) : Prop :=
  ∃ c rest, p = c :: rest ∧ isPathFirst c = true ∧ (∀ x ∈ rest, isPathRest x = true)

/-- The amended validator grammar: after discarding at most one trailing
newline, the string decomposes as `owner / path` with the two grammars
above (such a decomposition is unique because neither side may contain a
slash). -/
def AmendedValid (s : String) : Prop :=
  ∃ o p : List Char, stripNL s.data = o ++ '/' :: p ∧ OwnerGrammar o ∧ PathGrammar p

/-! ### Version parsing (`parse_semver`, `max_version`) -/

/-- Value of a nonempty all-digit string, else `none` (`(\d+)` plus `int`). -/
def digitsVal (s : String) : Option Nat :=
  if s ≠ "" && s.data.all Char.isDigit then
    some (s.data.foldl (fun n c => 10 * n + (c.toNat - '0'.toNat)) 0)
  else none

/-- `parse_semver`: `^(\d+)\.(\d+)\.(\d+)$` (with Python's `$`-before-final-
newline tolerance), returning the integer triple on success. -/
def parse_semver (s : String) : Option (Nat × Nat × Nat) :=
  match pySplit '.' (String.mk (stripNL s.data)) with
  | [a, b, c] =>
    match digitsVal a, digitsVal b, digitsVal c with
    | some x, some y, some z => some (x, y, z)
    | _, _, _ => none
  | _ => none

/-- Lexicographic `≤` on version triples (Python tuple comparison). -/
def verLe (a b : Nat × Nat × Nat) : Bool :=
  a.1 < b.1 || (a.1 = b.1 && (a.2.1 < b.2.1 || (a.2.1 = b.2.1 && a.2.2 ≤ b.2.2)))

/-- Maximum of a list of version triples (`max` of a Python set; the lex
order is total, so iteration order does not affect the result). -/
def listMaxV : List (Nat × Nat × Nat) → Option (Nat × Nat × Nat)
  | [] => none
  | v :: vs => some (vs.foldl (fun a b => if verLe a b then b else a) v)

/-! ### JSON values and Python `in` / `.get` semantics -/

/-- JSON values as produced by `json.loads` (JSON `null` becomes Python
`None`). -/
inductive JsonVal where
  | str (s : String)
  | num (n : Int)
  | bool (b : Bool)
  | null
  | arr (l : List JsonVal)
  | obj (fields : List (String × JsonVal))

/-- Is a JSON value a string? -/
def jsonIsString : JsonVal → Bool
  | .str _ => true
  | _ => false

/-- Substring test: Python `needle in hay` for strings. -/
def strContains (hay needle : String) : Bool :=
  hay.data.tails.any (fun t => needle.data.isPrefixOf t)

/-- Python `==` between a JSON value and a string (used by `in` on lists):
only equal strings compare equal. -/
def jsonEqStr (v : JsonVal) (t : String) : Bool :=
  match v with
  | .str s => s == t
  | _ => false

/-! ### The effect monad: operation traces plus Python exceptions -/

/-- The Python exceptions that can arise in the mirrored code paths.  All of
them derive from `Exception`, so `main`'s per-package handler catches every
one of them. -/
inductive PyErr where
  | calledProcessError
  | valueError
  | typeError
  | jsonDecodeError
  | attributeError
  | exception (msg : String)
deriving Repr, DecidableEq

/-- Filesystem, subprocess and network operations performed by a run.
`statPath`/`statDir` are the read-only `os.path.exists`/`os.path.isdir`
probes; everything else is a subprocess, network request, or mutation. -/
inductive Op where
  | gitLog (dir : String)
  | gitTag (dir : String)
  | gitShow (dir spec : String)
  | gitShowRef (dir ver : String)
  | gitArchive (dir pre out : String)
  | gitClone (url dir : String)
  | gitFetch (dir : String)
  | gitUpdateServerInfo (dir : String)
  | headReq (url : String)
  | rmtree (path : String)
  | mkdirs (path : String)
  | writeFile (path content : String)
  | statPath (path : String)
  | statDir (path : String)
deriving Repr, DecidableEq

/-- Writer/except monad: the list of operations performed so far together
with either a result or a raised exception. -/
structure PyM (α : Type) where
  ops : List Op
  res : Except PyErr α
deriving Repr

instance : Monad PyM where
  pure a := ⟨[], .ok a⟩
  bind x f :=
    match x.res with
    | .ok a => let y := f a; ⟨x.ops ++ y.ops, y.res⟩
    | .error e => ⟨x.ops, .error e⟩

/-- Perform an operation. -/
def opM (o : Op) : PyM Unit := ⟨[o], .ok ()⟩

/-- Raise an exception. -/
def throwM {α : Type} (e : PyErr) : PyM α := ⟨[], .error e⟩

/-- `try: x except subprocess.CalledProcessError: h` — operations already
performed in the body are kept. -/
def tryCPE {α : Type} (x h : PyM α) : PyM α :=
  match x.res with
  | .error .calledProcessError => ⟨x.ops ++ h.ops, h.res⟩
  | _ => x

/-- `try: x except Exception: h` (the handler in `main`'s package loop). -/
def tryAll {α : Type} (x h : PyM α) : PyM α :=
  match x.res with
  | .error _ => ⟨x.ops ++ h.ops, h.res⟩
  | _ => x

/-- A subprocess invocation: record the operation; on failure
(`check=True`) raise `CalledProcessError`, otherwise return its stdout. -/
def runGitCond (o : Op) (ok : Bool) (out : String) : PyM String :=
  ⟨[o], if ok then .ok out else .error .calledProcessError⟩

/-! ### The world oracle -/

/-- Oracle for everything outside the program: filesystem state, git
subprocess outcomes and outputs, HTTP status codes, and JSON parsing.
`fileSize` records artifact sizes; the program itself never consults it. -/
structure Env where
  root : String
  cwd : String
  pexists : String → Bool
  isdir : String → Bool
  gitLogOk : String → Bool
  tagsOk : String → Bool
  tagsOut : String → String
  headStatus : String → Nat
  cloneOk : String → Bool
  fetchOk : String → Bool
  showOk : String → String → Bool
  showOut : String → String → String
  showRefOk : String → String → Bool
  showRefOut : String → String → String
  archiveOk : String → String → Bool
  usiOk : String → Bool
  jsonParse : String → Except Unit JsonVal
  fileSize : String → Nat

/-! ### The embedded program -/

/-- `package_url`. -/
def package_url (name : String) : String :=
  "https://github.com/" ++ name

/-- `package_git_dir`: `name.split('/')` destructured into exactly two
parts (otherwise Python raises `ValueError`), joined under the root. -/
def package_git_dir (env : Env) (name : String) : PyM String :=
  match pySplit '/' name with
  | [user, repo] => pure (joinOne (joinOne env.root user) repo)
  | _ => throwM .valueError

/-- `package_user_path`. -/
def package_user_path (env : Env) (name : String) : PyM String :=
  match pySplit '/' name with
  | [user, _] => pure (joinOne env.root user)
  | _ => throwM .valueError

/-- `ensure_path_exists` (`os.makedirs(..., exist_ok=True)`). -/
def ensure_path_exists (p : String) : PyM Unit := opM (.mkdirs p)

/-- `is_package_url_available`: a `HEAD` request; 200 and 301 mean
available, anything else is logged and reported unavailable. -/
def is_package_url_available (env : Env) (url : String) : PyM Bool := do
  opM (.headReq url)
  pure (decide (env.headStatus url = 200 ∨ env.headStatus url = 301))

/-- Python `str.strip()`. -/
def pyStripWs (s : String) : String :=
  String.mk (((s.data.dropWhile Char.isWhitespace).reverse.dropWhile Char.isWhitespace).reverse)

/-- `run_git_lines` output processing: strip, split on newlines, drop
empty lines. -/
def gitLines (out : String) : List String :=
  (pySplit '\n' (pyStripWs out)).filter (fun l => l ≠ "")

/-- `get_git_tags` (`git tag -l`). -/
def get_git_tags (env : Env) (dir : String) : PyM (List String) := do
  let out ← runGitCond (.gitTag dir) (env.tagsOk dir) (env.tagsOut dir)
  pure (gitLines out)

/-- `valid_git_repo` (`git log -1` with `CalledProcessError` caught). -/
def valid_git_repo (env : Env) (dir : String) : PyM Bool :=
  tryCPE
    (do
      let _ ← runGitCond (.gitLog dir) (env.gitLogOk dir) ""
      pure true)
    (pure false)

/-- `max_version`: maximum of the parseable versions; `max` of an empty
set raises `ValueError`. -/
def max_version (versions : List String) : PyM (Nat × Nat × Nat) :=
  match listMaxV (versions.filterMap parse_semver) with
  | some m => pure m
  | none => throwM .valueError

/-- `has_complete_mirror`. -/
def has_complete_mirror (env : Env) (name : String) (versions : List String) :
    PyM Bool := do
  let dir ← package_git_dir env name
  let tags ← get_git_tags env dir
  if tags = [] then
    pure false
  else do
    let mt ← max_version tags
    let mv ← max_version versions
    pure (verLe mv mt)

/-- `careful_rmtree`: strip trailing slashes, resolve, compare the string
common prefix with `PACKAGE_ROOT`, and either delete recursively or raise. -/
def careful_rmtree (env : Env) (path : String) : PyM Unit :=
  let p := pyRstripSlash path
  let a := abspath env.cwd p
  let cp := commonPrefixStr a env.root
  do
  opM (.statDir p)
  if env.isdir p && p == a && cp == env.root then
    opM (.rmtree p)
  else
    throwM (.exception "Something does not look right, not deleting")

/-- `update_package`: valid and complete → no-op; valid and stale → fetch
if the remote is reachable; invalid → guarded delete then unconditional
re-clone. -/
def update_package (env : Env) (name : String) (versions : List String) :
    PyM Unit := do
  let url := package_url name
  let git_dir ← package_git_dir env name
  let v ← valid_git_repo env git_dir
  if v then do
    let c ← has_complete_mirror env name versions
    if c then
      pure ()
    else do
      let avail ← is_package_url_available env url
      if avail then do
        let _ ← runGitCond (.gitFetch git_dir) (env.fetchOk git_dir) ""
        pure ()
      else
        pure ()
  else do
    careful_rmtree env git_dir
    let _ ← runGitCond (.gitClone url git_dir) (env.cloneOk git_dir) ""
    pure ()

/-- `clone_package`: probe the remote first; clone only if available. -/
def clone_package (env : Env) (name : String) : PyM Unit := do
  let url := package_url name
  let git_dir ← package_git_dir env name
  let avail ← is_package_url_available env url
  if avail then do
    let up ← package_user_path env name
    ensure_path_exists up
    let _ ← runGitCond (.gitClone url git_dir) (env.cloneOk git_dir) ""
    pure ()
  else
    pure ()

/-- `description.get('elm-version')`: `.get` exists only on dicts
(`AttributeError` otherwise); a missing key yields Python `None`, as does a
JSON `null` value, so both are reported as `none`. -/
def pyGet (v : JsonVal) (key : String) : PyM (Option JsonVal) :=
  match v with
  | .obj fields =>
    match fields.find? (fun kv => kv.1 == key) with
    | some (_, .null) => pure none
    | some (_, w) => pure (some w)
    | none => pure none
  | _ => throwM .attributeError

/-- Python `target in expr`: substring test on strings, element test on
lists, key test on dicts, `TypeError` on `None` and scalars. -/
def pyIn (target : String) : Option JsonVal → Except PyErr Bool
  | none => .error .typeError
  | some (.str s) => .ok (strContains s target)
  | some (.arr l) => .ok (l.any (fun v => jsonEqStr v target))
  | some (.obj fields) => .ok (fields.any (fun kv => kv.1 == target))
  | some (.num _) => .error .typeError
  | some (.bool _) => .error .typeError
  | some .null => .error .typeError

/-- `is_interesting_version(target_version, version_expr)`:
`target_version in version_expr`. -/
def is_interesting_version (target : String) (expr : Option JsonVal) :
    PyM Bool :=
  ⟨[], pyIn target expr⟩

/-- `json.loads`; failure raises `json.JSONDecodeError`. -/
def json_loads (env : Env) (s : String) : PyM JsonVal :=
  match env.jsonParse s with
  | .ok j => pure j
  | .error _ => throwM .jsonDecodeError

/-- The `try:` body of the per-version loop in
`create_zipballs_and_descriptions`: read `elm.json` at the tag, parse it,
check the `elm-version` field, and (when interesting) write the
description.  Returns whether control falls through to the zipball step
(`continue` is `false`). -/
def zipInner (env : Env) (git_dir descdir desc_destination version : String) :
    PyM Bool := do
  let spec := version ++ ":elm.json"
  let raw ← runGitCond (.gitShow git_dir spec) (env.showOk git_dir spec)
    (env.showOut git_dir spec)
  let description ← json_loads env raw
  let field ← pyGet description "elm-version"
  let interesting ← is_interesting_version "0.19." field
  if !interesting then
    pure false
  else do
    ensure_path_exists descdir
    opM (.writeFile desc_destination raw)
    pure true

/-- One iteration of the version loop: the guarded description step with
`CalledProcessError` caught as `continue`, then the zipball step gated only
on `os.path.exists`. -/
def zipStep (env : Env) (git_dir zipdir descdir name version : String) :
    PyM Unit := do
  let desc_destination := joinOne descdir version
  let proceed ← tryCPE (zipInner env git_dir descdir desc_destination version)
    (pure false)
  if proceed then do
    ensure_path_exists zipdir
    let zip_destination := joinOne zipdir version
    opM (.statPath zip_destination)
    if env.pexists zip_destination then
      pure ()
    else do
      let abbrevId ← runGitCond (.gitShowRef git_dir version)
        (env.showRefOk git_dir version) (env.showRefOut git_dir version)
      let pre := String.mk (name.data.map (fun c => if c = '/' then '-' else c)) ++ "-" ++ abbrevId ++ "/"
      let _ ← runGitCond (.gitArchive git_dir pre zip_destination)
        (env.archiveOk git_dir zip_destination) ""
      pure ()
  else
    pure ()

/-- The per-version loop. -/
def zipLoop (env : Env) (git_dir zipdir descdir name : String) :
    List String → PyM Unit
  | [] => pure ()
  | v :: rest => do
    zipStep env git_dir zipdir descdir name v
    zipLoop env git_dir zipdir descdir name rest

/-- Deduplication with first-occurrence order (Python `set` construction;
iteration order of a Python set is unspecified, we fix the declared
order). -/
def pyDedupAux (seen : List String) : List String → List String
  | [] => []
  | x :: xs =>
    if seen.contains x then pyDedupAux seen xs
    else x :: pyDedupAux (x :: seen) xs

/-- Deduplicate a list keeping first occurrences. -/
def pyDedup (l : List String) : List String := pyDedupAux [] l

/-- `create_zipballs_and_descriptions`. -/
def create_zipballs_and_descriptions (env : Env) (name : String)
    (package_versions : List String) : PyM Unit := do
  let git_dir ← package_git_dir env name
  let tags ← get_git_tags env git_dir
  let versions := (pyDedup package_versions).filter (fun v => tags.contains v)
  let zipdir := joinOne git_dir "zipball"
  let descdir := joinOne git_dir "descriptions"
  zipLoop env git_dir zipdir descdir name versions

/-- `git_update_server_info`. -/
def git_update_server_info (env : Env) (dir : String) : PyM Unit := do
  let _ ← runGitCond (.gitUpdateServerInfo dir) (env.usiOk dir) ""
  pure ()

/-- `mirror_package`: derive the git directory, gate the synchronizer on
the name validator, then (unconditionally) probe structural validity and
extract artifacts when the probe succeeds. -/
def mirror_package (env : Env) (name : String) (versions : List String) :
    PyM Unit := do
  let git_dir ← package_git_dir env name
  if !is_valid_repo_name name then
    pure ()
  else do
    opM (.statPath git_dir)
    if env.pexists git_dir then
      update_package env name versions
    else
      clone_package env name
  let v ← valid_git_repo env git_dir
  if v then do
    create_zipballs_and_descriptions env name versions
    git_update_server_info env git_dir
  else
    pure ()

/-- The package loop in `main`: every exception from a package is caught,
logged, and the run continues with the next package. -/
def mirror_loop (env : Env) : List (String × List String) → PyM Unit
  | [] => pure ()
  | (n, vs) :: rest => do
    tryAll (mirror_package env n vs) (pure ())
    mirror_loop env rest

/-! ### Operation classifiers -/

/-- Synchronizer / network operations: the guarded delete, clone, fetch and
the reachability probe. -/
def isSyncOp : Op → Bool
  | .rmtree _ => true
  | .gitClone _ _ => true
  | .gitFetch _ => true
  | .headReq _ => true
  | _ => false

/-- The archive-creation operations in a trace. -/
def archiveOps (l : List Op) : List Op :=
  l.filter (fun o => match o with | .gitArchive _ _ _ => true | _ => false)

/-! ### Concrete world oracles for the claims -/

/-- A default world: nothing on disk, remote unreachable (404), git
subprocesses succeed where probed, a well-formed 0.19 descriptor. -/
def baseEnv : Env where
  root := "/m/"
  cwd := "/w"
  pexists := fun _ => false
  isdir := fun _ => true
  gitLogOk := fun _ => false
  tagsOk := fun _ => true
  tagsOut := fun _ => ""
  headStatus := fun _ => 404
  cloneOk := fun _ => false
  fetchOk := fun _ => true
  showOk := fun _ _ => true
  showOut := fun _ _ => "raw elm json"
  showRefOk := fun _ _ => true
  showRefOut := fun _ _ => "abc123"
  archiveOk := fun _ _ => true
  usiOk := fun _ => true
  jsonParse := fun _ => .ok (.obj [("elm-version", .str "0.19.1")])
  fileSize := fun _ => 0

/-- A fully-synced, fully-archived world for package `acme/widget` at
version `1.0.0`: the mirror exists and is valid, its single tag matches the
single declared version, and the description and (when `zipExists`) the
zipball artifact are already on disk with size `sz`. -/
def envSynced (zipExists : Bool) (sz : Nat) : Env :=
  { baseEnv with
    pexists := fun p => if p = "/m/acme/widget/zipball/1.0.0" then zipExists else true
    gitLogOk := fun _ => true
    tagsOut := fun _ => "1.0.0"
    fileSize := fun _ => sz }

/-- World for the confinement counterexample: the configured root is
`/data/mirror` (no trailing separator, as `--destination-directory
/data/mirror` would set it) and every path is a directory. -/
def envSibling : Env :=
  { baseEnv with root := "/data/mirror", cwd := "/w" }

/-- World for the invalid-name probe: default root, empty filesystem. -/
def envNameProbe : Env :=
  { baseEnv with root := "/var/tmp/elmirror/" }

/-- World for the run-continues counterexample: the configured root
contains a `..` segment, so the derived mirror directory of `user/pkg` does
not resolve to itself and the guarded delete trips; that mirror exists on
disk but fails the structural probe. -/
def envEscape : Env :=
  { baseEnv with
    root := "/data/mirror/.."
    cwd := "/r"
    pexists := fun p => p = "/data/mirror/../user/pkg" }

/-- World for the invalid-state clone: the mirror exists but is
structurally broken, and the remote is unreachable (HEAD would give 404 and
`git clone` fails). -/
def envBrokenClone : Env :=
  { baseEnv with pexists := fun _ => true }

/-- Absent state with HTTP status `st` for every probe. -/
def envAbsent (st : Nat) : Env :=
  { baseEnv with headStatus := fun _ => st }

/-- Stale state (valid mirror, tag `0.9.0` behind declared `1.0.0`) with
HTTP status `st`. -/
def envStale (st : Nat) : Env :=
  { baseEnv with
    pexists := fun _ => true
    gitLogOk := fun _ => true
    tagsOut := fun _ => "0.9.0"
    headStatus := fun _ => st }

/-- Invalid state (mirror exists, structural probe fails, clone fails) with
HTTP status `st`. -/
def envInvalid (st : Nat) : Env :=
  { baseEnv with
    pexists := fun _ => true
    headStatus := fun _ => st }

/-- World whose `git tag -l` output is exactly `t`. -/
def envTags (t : String) : Env :=
  { baseEnv with gitLogOk := fun _ => true, tagsOut := fun _ => t }

/-- Synced world in which `git show <tag>:elm.json` fails (no such blob in
the tagged tree). -/
def envNoElmJson : Env :=
  { baseEnv with
    gitLogOk := fun _ => true
    tagsOut := fun _ => "1.0.0"
    showOk := fun _ _ => false }

/-- Synced world with two tagged versions whose descriptor blobs are not
valid JSON. -/
def envBadJson : Env :=
  { baseEnv with
    gitLogOk := fun _ => true
    tagsOut := fun _ => "1.0.0\n2.0.0"
    jsonParse := fun _ => .error () }

/-- Synced world whose descriptor at every tag parses to an object with
`elm-version` bound to `j`. -/
def envField (j : JsonVal) : Env :=
  { baseEnv with
    tagsOut := fun _ => "1.0.0"
    jsonParse := fun _ => .ok (.obj [("elm-version", j)]) }

/-- Synced world whose descriptor parses to an object without an
`elm-version` field. -/
def envNoField : Env :=
  { baseEnv with
    tagsOut := fun _ => "1.0.0"
    jsonParse := fun _ => .ok (.obj []) }

/-! ### Basic lemmas about the effect monad -/

@[simp]
theorem ops_bind {α β : Type} (x : PyM α) (f : α → PyM β) :
    (x >>= f).ops = x.ops ++ (match x.res with | .ok a => (f a).ops | .error _ => []) := by
  rcases x with ⟨o, r⟩
  cases r <;> simp [Bind.bind]

@[simp]
theorem res_bind {α β : Type} (x : PyM α) (f : α → PyM β) :
    (x >>= f).res = (match x.res with | .ok a => (f a).res | .error e => .error e) := by
  rcases x with ⟨o, r⟩
  cases r <;> simp [Bind.bind]

@[simp]
theorem ops_pure {α : Type} (a : α) : (pure a : PyM α).ops = [] := rfl

@[simp]
theorem res_pure {α : Type} (a : α) : (pure a : PyM α).res = .ok a := rfl

@[simp]
theorem ops_opM (o : Op) : (opM o).ops = [o] := rfl

@[simp]
theorem res_opM (o : Op) : (opM o).res = .ok () := rfl

@[simp]
theorem ops_throwM {α : Type} (e : PyErr) : (throwM (α := α) e).ops = [] := rfl

@[simp]
theorem res_throwM {α : Type} (e : PyErr) : (throwM (α := α) e).res = .error e := rfl

@[simp]
theorem ops_runGitCond (o : Op) (ok : Bool) (out : String) :
    (runGitCond o ok out).ops = [o] := rfl

@[simp]
theorem res_runGitCond (o : Op) (ok : Bool) (out : String) :
    (runGitCond o ok out).res = if ok then .ok out else .error .calledProcessError := by
  cases ok <;> rfl

@[simp]
theorem ops_tryCPE {α : Type} (x h : PyM α) :
    (tryCPE x h).ops =
      (match x.res with
       | .error .calledProcessError => x.ops ++ h.ops
       | _ => x.ops) := by
  rcases x with ⟨o, r⟩
  cases r with
  | ok a => rfl
  | error e => cases e <;> rfl

@[simp]
theorem res_tryCPE {α : Type} (x h : PyM α) :
    (tryCPE x h).res =
      (match x.res with
       | .error .calledProcessError => h.res
       | r => r) := by
  rcases x with ⟨o, r⟩
  cases r with
  | ok a => rfl
  | error e => cases e <;> rfl

@[simp]
theorem res_tryAll {α : Type} (x h : PyM α) :
    (tryAll x h).res = (match x.res with | .error _ => h.res | r => r) := by
  rcases x with ⟨o, r⟩
  cases r <;> rfl

@[simp]
theorem ops_tryAll {α : Type} (x h : PyM α) :
    (tryAll x h).ops = (match x.res with | .error _ => x.ops ++ h.ops | _ => x.ops) := by
  rcases x with ⟨o, r⟩
  cases r <;> rfl

/-! ### Claim C1: is a confinement violation fatal for the run? -/

/-- Claim C1 (counterexample): a guarded delete whose resolved target is
not a strict descendant of `MirrorRoot` raises an exception inside
`mirror_package`, but `main`'s per-package handler catches it: the run
continues with the next package (its reachability probe appears in the
trace) and finishes successfully, so the violation is handled as a
per-package error, contrary to the claim. -/
theorem c1_counterexample :
    (mirror_package envEscape "user/pkg" []).res =
      .error (.exception "Something does not look right, not deleting") ∧
    isStrictDescendant envEscape.root
      (abspath envEscape.cwd (pyRstripSlash "/data/mirror/../user/pkg")) = false ∧
    (mirror_loop envEscape [("user/pkg", []), ("good/one", [])]).res = .ok () ∧
    Op.headReq "https://github.com/good/one" ∈
      (mirror_loop envEscape [("user/pkg", []), ("good/one", [])]).ops :=
  ⟨rfl, rfl, rfl, by decide⟩

/-- Claim C1 (amended): the package loop of `main` never aborts: every
exception a package raises — including the guarded delete's confinement
exception — is caught by the per-package handler and the loop always
completes normally. -/
theorem c1_amended (env : Env) (pkgs : List (String × List String)) :
    (mirror_loop env pkgs).res = .ok () := by
  induction pkgs with
  | nil => rfl
  | cons p rest ih =>
    rcases p with ⟨n, vs⟩
    cases h : (mirror_package env n vs).res <;>
      simp [mirror_loop, h, ih]

/-! ### Claim C4: are manifest artifacts write-once? -/

/-- Claim C4 (counterexample): in a fully-synced, fully-archived world
(valid mirror, tag equal to the declared version, description and zipball
artifacts already present), a further full run performs no clone, fetch,
delete, probe, or archive write — but it still writes the description
artifact again, so manifests are not write-once. -/
theorem c4_counterexample :
    (mirror_package (envSynced true 7) "acme/widget" ["1.0.0"]).ops.all
      (fun o => !isSyncOp o) = true ∧
    archiveOps (mirror_package (envSynced true 7) "acme/widget" ["1.0.0"]).ops = [] ∧
    Op.writeFile "/m/acme/widget/descriptions/1.0.0" "raw elm json" ∈
      (mirror_package (envSynced true 7) "acme/widget" ["1.0.0"]).ops ∧
    (mirror_package (envSynced true 7) "acme/widget" ["1.0.0"]).res = .ok () :=
  ⟨rfl, rfl, by decide, rfl⟩

set_option maxHeartbeats 2000000 in
/-- Claim C4 (amended): the description artifact is rewritten by every run
that reaches the interesting-version step, whether or not any artifact
already exists on disk (the zipball-existence state `zipExists` and the
artifact sizes `sz` are irrelevant to it). -/
theorem c4_amended (zipExists : Bool) (sz : Nat) :
    Op.writeFile "/m/acme/widget/descriptions/1.0.0" "raw elm json" ∈
      (mirror_package (envSynced zipExists sz) "acme/widget" ["1.0.0"]).ops := by
  cases zipExists
  · have h : (mirror_package (envSynced false sz) "acme/widget" ["1.0.0"]).ops =
        (mirror_package (envSynced false 0) "acme/widget" ["1.0.0"]).ops := rfl
    rw [h]
    decide
  · have h : (mirror_package (envSynced true sz) "acme/widget" ["1.0.0"]).ops =
        (mirror_package (envSynced true 0) "acme/widget" ["1.0.0"]).ops := rfl
    rw [h]
    decide

/-! ### Claim C5: completeness check on unparseable versions -/

/-- Claim C5: `has_complete_mirror` returns `false` on an empty tag list
and compares lexicographic maxima otherwise — but when neither the tags nor
the declared versions contain a parseable version it does not return
`false`: `max` of the empty filtered set raises `ValueError`
(tags `foo`, declared `bar`), which the claim (and the spec's explicit
fail-open mandate) says must not happen. -/
theorem c5_code_bug :
    (has_complete_mirror (envTags "foo") "u/r" ["bar"]).res = .error .valueError ∧
    (has_complete_mirror (envTags "") "u/r" ["1.0.0"]).res = .ok false ∧
    (has_complete_mirror (envTags "1.0.0") "u/r" ["1.0.0", "0.9.0"]).res = .ok true ∧
    (has_complete_mirror (envTags "2.0.0") "u/r" ["1.0.0"]).res = .ok true :=
  ⟨rfl, rfl, rfl, rfl⟩

/-! ### Claim C7: zipball skip condition and atomicity -/

/-- Claim C7 (counterexample): the zipball artifact exists but is empty
(size 0); the claim requires regeneration in that case, but the code's
`os.path.exists` gate skips archive creation anyway. -/
theorem c7_counterexample :
    (envSynced true 0).pexists "/m/acme/widget/zipball/1.0.0" = true ∧
    (envSynced true 0).fileSize "/m/acme/widget/zipball/1.0.0" = 0 ∧
    archiveOps (mirror_package (envSynced true 0) "acme/widget" ["1.0.0"]).ops = [] ∧
    (mirror_package (envSynced true 0) "acme/widget" ["1.0.0"]).res = .ok () :=
  ⟨rfl, rfl, rfl, rfl⟩

set_option maxHeartbeats 2000000 in
/-- Claim C7 (amended): archive creation is skipped exactly when the
artifact path exists, whatever its size; when it does not exist,
`git archive` writes directly to the final artifact path (the `--output`
target in the trace is the destination itself, with no temporary file or
rename step). -/
theorem c7_amended (zipExists : Bool) (sz : Nat) :
    (archiveOps (mirror_package (envSynced zipExists sz) "acme/widget" ["1.0.0"]).ops = []
      ↔ zipExists = true) ∧
    (zipExists = false →
      Op.gitArchive "/m/acme/widget" "acme-widget-abc123/" "/m/acme/widget/zipball/1.0.0" ∈
        (mirror_package (envSynced zipExists sz) "acme/widget" ["1.0.0"]).ops) := by
  cases zipExists
  · have h : (mirror_package (envSynced false sz) "acme/widget" ["1.0.0"]).ops =
        (mirror_package (envSynced false 0) "acme/widget" ["1.0.0"]).ops := rfl
    rw [h]
    constructor <;> decide
  · have h : (mirror_package (envSynced true sz) "acme/widget" ["1.0.0"]).ops =
        (mirror_package (envSynced true 0) "acme/widget" ["1.0.0"]).ops := rfl
    rw [h]
    constructor <;> decide

/-- Claim C7 (witness for the amended theorem): with no artifact on disk
the archive subprocess writes straight to the destination path. -/
theorem c7_amended_witness :
    Op.gitArchive "/m/acme/widget" "acme-widget-abc123/" "/m/acme/widget/zipball/1.0.0" ∈
      (mirror_package (envSynced false 0) "acme/widget" ["1.0.0"]).ops :=
  (c7_amended false 0).2 rfl

/-! ### Claim C9: descriptor filename fallback and parse failures -/

/-- Claim C9 (counterexample): when `git show <tag>:elm.json` fails, the
complete operation trace of the extractor contains exactly one descriptor
read — there is no second attempt with a legacy filename — and the version
is skipped without error. -/
theorem c9_counterexample :
    envNoElmJson.showOk "/m/acme/widget" "1.0.0:elm.json" = false ∧
    (create_zipballs_and_descriptions envNoElmJson "acme/widget" ["1.0.0"]).ops =
      [.gitTag "/m/acme/widget", .gitShow "/m/acme/widget" "1.0.0:elm.json"] ∧
    (create_zipballs_and_descriptions envNoElmJson "acme/widget" ["1.0.0"]).res = .ok () :=
  ⟨rfl, rfl, rfl⟩


/-! ### Claim C2: does the guarded delete confine deletions to the root? -/

/-- Claim C2 (counterexample): with the configured root `/data/mirror`
(no trailing separator), the guarded delete accepts the sibling directory
`/data/mirrorx` — the root is a string prefix of it — and removes it, even
though it is not a strict descendant of the root and the claim requires an
error with no mutation. -/
theorem c2_counterexample :
    (careful_rmtree envSibling "/data/mirrorx").res = .ok () ∧
    Op.rmtree "/data/mirrorx" ∈ (careful_rmtree envSibling "/data/mirrorx").ops ∧
    isStrictDescendant envSibling.root "/data/mirrorx" = false :=
  ⟨rfl, by decide, rfl⟩

/-- Longest-common-prefix characterization: if the common prefix of `a`
and `b` is all of `b`, then `b` is a prefix of `a`. -/
theorem commonPrefixList_pref (a b : List Char) (h : commonPrefixList a b = b) :
    b <+: a := by
  induction b generalizing a with
  | nil => exact List.nil_prefix
  | cons y ys ih =>
    cases a with
    | nil => simp [commonPrefixList] at h
    | cons x xs =>
      simp only [commonPrefixList] at h
      by_cases hxy : x = y
      · rw [if_pos hxy] at h
        injection h with h1 h2
        subst hxy
        obtain ⟨t, ht⟩ := ih xs h2
        exact ⟨t, by rw [List.cons_append, ht]⟩
      · rw [if_neg hxy] at h
        simp at h

/-- The slash-prefix of a list taken by `takeWhile` is a replicate of
slashes. -/
theorem takeWhile_slash_all (l : List Char) :
    List.takeWhile (fun c => c == '/') l =
      List.replicate (List.takeWhile (fun c => c == '/') l).length '/' := by
  induction l with
  | nil => rfl
  | cons c cs ih =>
    by_cases hc : c = '/'
    · subst hc
      rw [List.takeWhile_cons_of_pos (by simp)]
      rw [List.length_cons, List.replicate_succ]
      exact congrArg (List.cons '/') ih
    · rw [List.takeWhile_cons_of_neg (by simp [hc])]
      rfl

/-- Every string is its slash-stripped form followed by some slashes. -/
theorem rstrip_decomp (s : String) :
    ∃ k, s.data = (pyRstripSlash s).data ++ List.replicate k '/' := by
  have h1 : List.takeWhile (fun c => c == '/') s.data.reverse ++
      List.dropWhile (fun c => c == '/') s.data.reverse = s.data.reverse :=
    List.takeWhile_append_dropWhile _ _
  have h2 := congrArg List.reverse h1
  rw [List.reverse_append, List.reverse_reverse] at h2
  refine ⟨(List.takeWhile (fun c => c == '/') s.data.reverse).length, ?_⟩
  conv_lhs => rw [← h2]
  congr 1
  rw [takeWhile_slash_all s.data.reverse, List.reverse_replicate, List.length_replicate]

/-- The slash-stripped form of a string does not end with a slash. -/
theorem rstrip_no_trailing (s : String) :
    (pyRstripSlash s).data.getLast? ≠ some '/' := by
  show ((s.data.reverse.dropWhile (fun c => c == '/')).reverse).getLast? ≠ some '/'
  rw [List.getLast?_reverse]
  generalize s.data.reverse = l
  induction l with
  | nil => simp
  | cons c cs ih =>
    rw [List.dropWhile_cons]
    by_cases hc : c = '/'
    · simpa [hc] using ih
    · simp [hc]

/-- Stripping trailing slashes from a string that has none is the
identity. -/
theorem rstrip_eq_self (t : String) (h : t.data.getLast? ≠ some '/') :
    pyRstripSlash t = t := by
  unfold pyRstripSlash
  have hd : t.data.reverse.dropWhile (fun c => c == '/') = t.data.reverse := by
    cases hrev : t.data.reverse with
    | nil => rfl
    | cons c cs =>
      have hg : t.data.getLast? = some c := by
        rw [← List.head?_reverse, hrev]
        rfl
      have hc : ¬(c = '/') := by
        intro hc'
        exact h (by rw [hg, hc'])
      rw [List.dropWhile_cons]
      simp [hc]
  rw [hd, List.reverse_reverse]

/-- Stripping trailing slashes is idempotent. -/
theorem rstrip_idem (s : String) :
    pyRstripSlash (pyRstripSlash s) = pyRstripSlash s :=
  rstrip_eq_self _ (rstrip_no_trailing s)

/-- A deletion performed by `careful_rmtree` deletes the slash-stripped
target, which equals its own resolved absolute form and has the configured
root as a string prefix. -/
theorem careful_rmtree_char (env : Env) (path q : String)
    (hq : Op.rmtree q ∈ (careful_rmtree env path).ops) :
    q = pyRstripSlash path ∧
    pyRstripSlash path = abspath env.cwd (pyRstripSlash path) ∧
    commonPrefixStr (pyRstripSlash path) env.root = env.root := by
  unfold careful_rmtree at hq
  simp only [ops_bind, res_opM, ops_opM, ops_throwM] at hq
  split at hq
  case isTrue hcond =>
    rw [Bool.and_eq_true, Bool.and_eq_true] at hcond
    obtain ⟨⟨hdir, hpa⟩, hcp⟩ := hcond
    have hpa' : pyRstripSlash path = abspath env.cwd (pyRstripSlash path) := eq_of_beq hpa
    have hcp' : commonPrefixStr (abspath env.cwd (pyRstripSlash path)) env.root = env.root :=
      eq_of_beq hcp
    have hqq : q = pyRstripSlash path := by
      simp only [List.mem_append, List.mem_cons, List.not_mem_nil, or_false] at hq
      rcases hq with hq | hq
      · exact absurd hq (by simp)
      · simpa using hq
    exact ⟨hqq, hpa', by rw [hpa']; exact hcp'⟩
  case isFalse hcond =>
    simp at hq

/-- Claim C2 (amended): when the configured root ends with a path
separator (as the default `/var/tmp/elmirror/` does), every target the
guarded delete actually removes is a strict descendant of the root; with a
root written without the trailing separator the check degrades to a plain
string-prefix test (see the counterexample). -/
theorem c2_amended (env : Env) (path q : String)
    (hroot : endsWithSlash env.root = true)
    (hq : Op.rmtree q ∈ (careful_rmtree env path).ops) :
    isStrictDescendant env.root q = true := by
  obtain ⟨hqp, hpa, hcp⟩ := careful_rmtree_char env path q hq
  subst hqp
  set p := pyRstripSlash path with hp
  have h4 : commonPrefixList p.data env.root.data = env.root.data :=
    congrArg String.data hcp
  obtain ⟨rest, hrest⟩ := commonPrefixList_pref p.data env.root.data h4
  obtain ⟨k, hk⟩ := rstrip_decomp env.root
  have hlast : env.root.data.getLast? = some '/' := eq_of_beq hroot
  have hk1 : 1 ≤ k := by
    rcases Nat.eq_zero_or_pos k with h0 | h
    · exfalso
      rw [h0, List.replicate_zero, List.append_nil] at hk
      exact rstrip_no_trailing env.root (by rw [← hk, hlast])
    · exact h
  have hk' : List.replicate k '/' = '/' :: List.replicate (k - 1) '/' := by
    cases k with
    | zero => omega
    | succ m => simp [List.replicate_succ]
  have hpp : pyRstripSlash p = p := rstrip_idem path
  unfold isStrictDescendant
  rw [Bool.and_eq_true]
  constructor
  · rw [List.isPrefixOf_iff_prefix]
    refine ⟨List.replicate (k - 1) '/' ++ rest, ?_⟩
    rw [← hrest, hk, hk']
    simp
  · rw [decide_eq_true_eq, hpp]
    intro he
    have hlen := congrArg (fun l => l.length) (congrArg String.data he)
    simp only at hlen
    have hplen := congrArg (fun l => l.length) hrest.symm
    rw [hk, hk'] at hplen
    simp [List.length_append] at hplen hlen
    omega

/-- Claim C2 (witness for the amended theorem): with the slash-terminated
default root, a deleted mirror directory is a strict descendant of the
root. -/
theorem c2_amended_witness : isStrictDescendant baseEnv.root "/m/a" = true :=
  c2_amended baseEnv "/m/a" "/m/a" (by decide) (by decide)


/-! ### Claim C6: does the synchronizer ever raise on an unreachable remote? -/

/-- Claim C6 (counterexample): with an invalid mirror and an unreachable
remote (every probe would give 404 and `git clone` fails), `update_package`
deletes the mirror and then clones without any reachability probe — the
trace contains no HEAD request — and the clone failure raises
`CalledProcessError` out of the synchronizer, contrary to the claim that
the Invalid state re-clones "as if Absent (which checks reachability before
cloning)" and never raises for an unreachable remote. -/
theorem c6_counterexample :
    envBrokenClone.headStatus "https://github.com/user/pkg" = 404 ∧
    (update_package envBrokenClone "user/pkg" ["1.0.0"]).ops =
      [.gitLog "/m/user/pkg", .statDir "/m/user/pkg", .rmtree "/m/user/pkg",
       .gitClone "https://github.com/user/pkg" "/m/user/pkg"] ∧
    (update_package envBrokenClone "user/pkg" ["1.0.0"]).res = .error .calledProcessError :=
  ⟨rfl, rfl, rfl⟩

set_option maxHeartbeats 2000000 in
/-- Claim C6 (amended): for a remote whose probe status is neither 200 nor
301, the Absent state (no mirror on disk) and the Stale state (valid mirror
behind the declared versions) are soft no-ops — the synchronizer completes
without raising; but the Invalid state deletes the mirror and re-clones
without a reachability check, so the failing clone raises
`CalledProcessError` (which `main` then catches per package). -/
theorem c6_amended (st : Nat) (h200 : st ≠ 200) (h301 : st ≠ 301) :
    (mirror_package (envAbsent st) "user/pkg" ["1.0.0"]).res = .ok () ∧
    (mirror_package (envStale st) "user/pkg" ["1.0.0"]).res = .ok () ∧
    (mirror_package (envInvalid st) "user/pkg" ["1.0.0"]).res =
      .error .calledProcessError := by
  have hnot : ¬(st = 200 ∨ st = 301) := by
    rintro (h | h)
    · exact h200 h
    · exact h301 h
  have hd : decide (st = 200 ∨ st = 301) = false := decide_eq_false hnot
  refine ⟨?_, ?_, rfl⟩
  · have hm : mirror_package (envAbsent st) "user/pkg" ["1.0.0"] =
        (⟨[.statPath "/m/user/pkg"], .ok ()⟩ : PyM Unit) >>= fun _ =>
          clone_package (envAbsent st) "user/pkg" >>= fun _ =>
            (⟨[.gitLog "/m/user/pkg"], .ok ()⟩ : PyM Unit) := rfl
    have hc : clone_package (envAbsent st) "user/pkg" =
        (⟨[.headReq "https://github.com/user/pkg"],
            .ok (decide (st = 200 ∨ st = 301))⟩ : PyM Bool) >>= fun avail =>
          (if avail then
            (⟨[.mkdirs "/m/user", .gitClone "https://github.com/user/pkg" "/m/user/pkg"],
              .error .calledProcessError⟩ : PyM Unit)
          else pure ()) := rfl
    rw [hm, hc, hd]
    rfl
  · have hm : mirror_package (envStale st) "user/pkg" ["1.0.0"] =
        (⟨[.statPath "/m/user/pkg"], .ok ()⟩ : PyM Unit) >>= fun _ =>
          update_package (envStale st) "user/pkg" ["1.0.0"] >>= fun _ =>
            (⟨[.gitLog "/m/user/pkg", .gitTag "/m/user/pkg",
               .gitUpdateServerInfo "/m/user/pkg"], .ok ()⟩ : PyM Unit) := rfl
    have hu : update_package (envStale st) "user/pkg" ["1.0.0"] =
        (⟨[.gitLog "/m/user/pkg", .gitTag "/m/user/pkg",
            .headReq "https://github.com/user/pkg"],
            .ok (decide (st = 200 ∨ st = 301))⟩ : PyM Bool) >>= fun avail =>
          (if avail then (⟨[.gitFetch "/m/user/pkg"], .ok ()⟩ : PyM Unit)
           else pure ()) := rfl
    rw [hm, hu, hd]
    rfl

/-- Claim C6 (witness for the amended theorem): status 404 — Absent and
Stale complete quietly, Invalid raises from the unconditional clone. -/
theorem c6_amended_witness :
    (mirror_package (envAbsent 404) "user/pkg" ["1.0.0"]).res = .ok () ∧
    (mirror_package (envStale 404) "user/pkg" ["1.0.0"]).res = .ok () ∧
    (mirror_package (envInvalid 404) "user/pkg" ["1.0.0"]).res =
      .error .calledProcessError :=
  c6_amended 404 (by decide) (by decide)


/-! ### Trace-shape lemmas for the extractor and the probes -/

/-- The structural-validity probe only ever runs `git log` on its
directory. -/
theorem valid_git_repo_ops (env : Env) (d : String) (o : Op)
    (ho : o ∈ (valid_git_repo env d).ops) : o = .gitLog d := by
  unfold valid_git_repo at ho
  by_cases h : env.gitLogOk d
  · simp only [ops_tryCPE, res_tryCPE, ops_bind, res_bind, ops_pure, res_pure,
      ops_runGitCond, res_runGitCond, h, if_true] at ho
    simp_all
  · simp only [ops_tryCPE, res_tryCPE, ops_bind, res_bind, ops_pure, res_pure,
      ops_runGitCond, res_runGitCond, h, if_false, Bool.false_eq_true] at ho
    simp_all

/-- Operations of the guarded description step: one `git show` of
`<tag>:elm.json`, and possibly the descriptions `mkdir` and the
description write. -/
theorem zipInner_ops (env : Env) (gd dd dest v : String) (o : Op)
    (ho : o ∈ (zipInner env gd dd dest v).ops) :
    o = .gitShow gd (v ++ ":elm.json") ∨ o = .mkdirs dd ∨
    (∃ c, o = .writeFile dest c) := by
  unfold zipInner json_loads is_interesting_version ensure_path_exists pyGet pyIn at ho
  simp only [ops_bind, res_bind, ops_opM, res_opM, ops_pure, res_pure,
    ops_runGitCond, res_runGitCond, ops_throwM, res_throwM] at ho
  repeat split at ho
  all_goals aesop

/-- Operations of one full version iteration. -/
theorem zipStep_ops (env : Env) (gd zd dd n v : String) (o : Op)
    (ho : o ∈ (zipStep env gd zd dd n v).ops) :
    o = .gitShow gd (v ++ ":elm.json") ∨ o = .mkdirs dd ∨
    (∃ c, o = .writeFile (joinOne dd v) c) ∨
    o = .mkdirs zd ∨ o = .statPath (joinOne zd v) ∨ o = .gitShowRef gd v ∨
    (∃ pre, o = .gitArchive gd pre (joinOne zd v)) := by
  unfold zipStep ensure_path_exists at ho
  simp only [ops_bind, res_bind, ops_opM, res_opM, ops_pure, res_pure,
    ops_runGitCond, res_runGitCond, ops_tryCPE, res_tryCPE] at ho
  repeat split at ho
  all_goals
    simp only [List.mem_append, List.mem_cons, List.not_mem_nil, or_false,
      List.nil_append, List.append_nil, List.mem_singleton] at ho
  all_goals
    first
      | (rcases ho with ho | ho
         · rcases zipInner_ops env gd dd (joinOne dd v) v o ho with h | h | ⟨c, h⟩ <;> subst h <;> tauto
         · aesop)
      | (rcases zipInner_ops env gd dd (joinOne dd v) v o ho with h | h | ⟨c, h⟩ <;> subst h <;> tauto)
      | aesop

/-- Operations of the whole version loop, attributed to some version. -/
theorem zipLoop_ops (env : Env) (gd zd dd n : String) (vs : List String) (o : Op)
    (ho : o ∈ (zipLoop env gd zd dd n vs).ops) :
    ∃ v, o = .gitShow gd (v ++ ":elm.json") ∨ o = .mkdirs dd ∨
      (∃ c, o = .writeFile (joinOne dd v) c) ∨
      o = .mkdirs zd ∨ o = .statPath (joinOne zd v) ∨ o = .gitShowRef gd v ∨
      (∃ pre, o = .gitArchive gd pre (joinOne zd v)) := by
  induction vs with
  | nil => simp [zipLoop] at ho
  | cons v rest ih =>
    unfold zipLoop at ho
    simp only [ops_bind] at ho
    rw [List.mem_append] at ho
    rcases ho with ho | ho
    · exact ⟨v, zipStep_ops env gd zd dd n v o ho⟩
    · split at ho
      · exact ih ho
      · simp at ho

/-- Every operation of the extractor is a tag listing, an `elm.json`
read, a directory creation, a description write, an existence probe, a
ref lookup, or an archive write. -/
theorem create_ops (env : Env) (n : String) (vs : List String) (o : Op)
    (ho : o ∈ (create_zipballs_and_descriptions env n vs).ops) :
    (∃ d, o = .gitTag d) ∨ (∃ d v, o = Op.gitShow d (v ++ ":elm.json")) ∨
    (∃ p, o = .mkdirs p) ∨ (∃ p c, o = .writeFile p c) ∨
    (∃ p, o = .statPath p) ∨ (∃ d v, o = .gitShowRef d v) ∨
    (∃ d pre out, o = .gitArchive d pre out) := by
  unfold create_zipballs_and_descriptions package_git_dir get_git_tags at ho
  rcases hsp : pySplit '/' n with _ | ⟨u, t⟩
  · rw [hsp] at ho
    simp [ops_bind, res_bind, ops_throwM, res_throwM] at ho
  · rcases t with _ | ⟨r, t2⟩
    · rw [hsp] at ho
      simp [ops_bind, res_bind, ops_throwM, res_throwM] at ho
    · rcases t2 with _ | _
      · rw [hsp] at ho
        by_cases ht : env.tagsOk (joinOne (joinOne env.root u) r)
        · simp only [ops_bind, res_bind, ops_pure, res_pure, ops_runGitCond,
            res_runGitCond, ht, if_true, List.nil_append, List.mem_cons,
            List.mem_append, List.not_mem_nil, or_false] at ho
          rcases ho with ho | ho
          · exact Or.inl ⟨_, ho⟩
          · obtain ⟨v, hv⟩ := zipLoop_ops env _ _ _ n _ o ho
            rcases hv with h | h | ⟨c, h⟩ | h | h | h | ⟨pre, h⟩ <;> subst h <;>
              first
                | exact Or.inl ⟨_, rfl⟩
                | exact Or.inr (Or.inl ⟨_, _, rfl⟩)
                | exact Or.inr (Or.inr (Or.inl ⟨_, rfl⟩))
                | exact Or.inr (Or.inr (Or.inr (Or.inl ⟨_, _, rfl⟩)))
                | exact Or.inr (Or.inr (Or.inr (Or.inr (Or.inl ⟨_, rfl⟩))))
                | exact Or.inr (Or.inr (Or.inr (Or.inr (Or.inr (Or.inl ⟨_, _, rfl⟩)))))
                | exact Or.inr (Or.inr (Or.inr (Or.inr (Or.inr (Or.inr ⟨_, _, _, rfl⟩)))))
        · simp only [ops_bind, res_bind, ops_pure, res_pure, ops_runGitCond,
            res_runGitCond, ht, if_false, Bool.false_eq_true, List.nil_append,
            List.mem_cons, List.mem_append, List.not_mem_nil, or_false] at ho
          exact Or.inl ⟨_, ho⟩
      · rw [hsp] at ho
        simp [ops_bind, res_bind, ops_throwM, res_throwM] at ho

/-! ### Claim C3: does a rejected name reach filesystem or subprocess ops? -/

/-- Claim C3 (counterexample): `../x` is rejected by the validator, yet
`mirror_package` still derives the path `/var/tmp/elmirror/../x` from it
and runs the read-only `git log` structural probe — a subprocess operation
on a path derived from the rejected identifier — before giving up. -/
theorem c3_counterexample :
    is_valid_repo_name "../x" = false ∧
    (mirror_package envNameProbe "../x" []).ops =
      [.gitLog "/var/tmp/elmirror/../x"] ∧
    (mirror_package envNameProbe "../x" []).res = .ok () :=
  ⟨rfl, rfl, rfl⟩

/-- Claim C3 (amended): a rejected identifier never reaches a destructive
or network operation — no delete, clone, fetch, or reachability probe
appears in its trace — but the derived git directory is computed before
validation and the read-only `git log` probe still runs on it (and, were
that probe to succeed, artifact extraction would also run). -/
theorem c3_amended :
    (∀ (env : Env) (n : String) (vs : List String),
      is_valid_repo_name n = false →
      (mirror_package env n vs).ops.all (fun o => !isSyncOp o) = true) ∧
    Op.gitLog "/var/tmp/elmirror/../x" ∈ (mirror_package envNameProbe "../x" []).ops := by
  constructor
  · intro env n vs hvalid
    rw [List.all_eq_true]
    intro o ho
    suffices hs : isSyncOp o = false by simp [hs]
    unfold mirror_package package_git_dir git_update_server_info at ho
    rcases hsp : pySplit '/' n with _ | ⟨u, t⟩
    · rw [hsp] at ho
      simp [ops_bind, res_bind, ops_throwM, res_throwM] at ho
    · rcases t with _ | ⟨r, t2⟩
      · rw [hsp] at ho
        simp [ops_bind, res_bind, ops_throwM, res_throwM] at ho
      · rcases t2 with _ | _
        · rw [hsp] at ho
          simp only [ops_bind, res_bind, ops_pure, res_pure, hvalid, Bool.not_false,
            if_true, List.nil_append, ops_throwM, res_throwM] at ho
          rw [List.mem_append] at ho
          rcases ho with ho | ho
          · rw [valid_git_repo_ops env _ o ho]
            rfl
          · rcases hres : (valid_git_repo env (joinOne (joinOne env.root u) r)).res with e | b
            · rw [hres] at ho
              simp at ho
            · rw [hres] at ho
              cases b
              · simp at ho
              · simp only [ops_bind, res_bind, ops_opM, res_opM, ops_pure, res_pure,
                  ops_runGitCond, res_runGitCond, if_true, List.mem_append] at ho
                rcases ho with ho | ho
                · rcases create_ops env n vs o ho with
                    ⟨d, h⟩ | ⟨d, v, h⟩ | ⟨p, h⟩ | ⟨p, c, h⟩ | ⟨p, h⟩ | ⟨d, v, h⟩ | ⟨d, pre, out, h⟩ <;>
                    subst h <;> rfl
                · repeat split at ho
                  all_goals simp_all [isSyncOp]
        · rw [hsp] at ho
          simp [ops_bind, res_bind, ops_throwM, res_throwM] at ho
  · decide

/-- Claim C3 (witness for the amended theorem): the rejected name `../x`
causes no destructive or network operation. -/
theorem c3_amended_witness :
    (mirror_package envNameProbe "../x" []).ops.all (fun o => !isSyncOp o) = true :=
  c3_amended.1 envNameProbe "../x" [] rfl


/-! ### Claim C9: amended behavior of the descriptor reader -/

/-- Claim C9 (amended): the extractor only ever reads the single
descriptor filename `elm.json` — every `git show` in any extractor trace
targets `<version>:elm.json`, so no legacy fallback filename is ever
attempted; a missing blob is a per-version skip (see the counterexample),
while a descriptor that fails to parse as JSON raises `JSONDecodeError`,
aborting the package's remaining versions (here version `2.0.0` is never
read after `1.0.0` fails to parse). -/
theorem c9_amended :
    (∀ (env : Env) (n : String) (vs : List String) (d sp : String),
        Op.gitShow d sp ∈ (create_zipballs_and_descriptions env n vs).ops →
        ∃ v, sp = v ++ ":elm.json") ∧
    (create_zipballs_and_descriptions envBadJson "acme/widget" ["1.0.0", "2.0.0"]).ops =
      [.gitTag "/m/acme/widget", .gitShow "/m/acme/widget" "1.0.0:elm.json"] ∧
    (create_zipballs_and_descriptions envBadJson "acme/widget" ["1.0.0", "2.0.0"]).res =
      .error .jsonDecodeError := by
  refine ⟨?_, rfl, rfl⟩
  intro env n vs d sp h
  rcases create_ops env n vs _ h with
    ⟨d', hd⟩ | ⟨d', v, hv⟩ | ⟨p, hp⟩ | ⟨p, c, hp⟩ | ⟨p, hp⟩ | ⟨d', v, hp⟩ | ⟨d', pre, out, hp⟩
  · exact absurd hd (by simp)
  · injection hv with h1 h2
    exact ⟨v, h2⟩
  · exact absurd hp (by simp)
  · exact absurd hp (by simp)
  · exact absurd hp (by simp)
  · exact absurd hp (by simp)
  · exact absurd hp (by simp)

/-- Claim C9 (witness for the amended theorem): the one descriptor read in
the failing-JSON trace indeed targets `elm.json`. -/
theorem c9_amended_witness :
    ∃ v, ("1.0.0:elm.json" : String) = v ++ ":elm.json" :=
  c9_amended.1 envBadJson "acme/widget" ["1.0.0", "2.0.0"] "/m/acme/widget"
    "1.0.0:elm.json" (by decide)

/-! ### Claim C10: which `elm-version` values produce artifacts? -/

/-- Python's `in` on a descriptor field value only raises `TypeError`. -/
theorem pyIn_err (t : String) (x : Option JsonVal) (e : PyErr)
    (h : pyIn t x = .error e) : e = .typeError := by
  cases x with
  | none =>
    injection h with h1
    exact h1.symm
  | some v =>
    cases v with
    | str s => simp [pyIn] at h
    | arr l => simp [pyIn] at h
    | obj f => simp [pyIn] at h
    | num n =>
      injection h with h1
      exact h1.symm
    | bool b =>
      injection h with h1
      exact h1.symm
    | null =>
      injection h with h1
      exact h1.symm

/-- The guarded description step in the `envField j` world, as a function
of the Python membership test on the `elm-version` field. -/
theorem zipInner_field (j : JsonVal) (dd dest : String) :
    zipInner (envField j) "/m/acme/widget" dd dest "1.0.0" =
      (⟨[.gitShow "/m/acme/widget" "1.0.0:elm.json"],
          pyIn "0.19." (some j)⟩ : PyM Bool) >>= fun i =>
        if !i then pure false
        else (⟨[.mkdirs dd, .writeFile dest "raw elm json"], .ok true⟩ : PyM Bool) := by
  cases j <;> rfl

/-- One version iteration in the `envField j` world. -/
theorem zipStep_field (j : JsonVal) :
    zipStep (envField j) "/m/acme/widget" "/m/acme/widget/zipball"
        "/m/acme/widget/descriptions" "acme/widget" "1.0.0" =
      (⟨[.gitShow "/m/acme/widget" "1.0.0:elm.json"],
          pyIn "0.19." (some j)⟩ : PyM Bool) >>= fun i =>
        if !i then pure ()
        else (⟨[.mkdirs "/m/acme/widget/descriptions",
                .writeFile "/m/acme/widget/descriptions/1.0.0" "raw elm json",
                .mkdirs "/m/acme/widget/zipball",
                .statPath "/m/acme/widget/zipball/1.0.0",
                .gitShowRef "/m/acme/widget" "1.0.0",
                .gitArchive "/m/acme/widget" "acme-widget-abc123/"
                  "/m/acme/widget/zipball/1.0.0"],
              .ok ()⟩ : PyM Unit) := by
  cases j with
  | str s =>
    simp only [zipStep]
    rw [zipInner_field]
    simp only [pyIn]
    generalize strContains s "0.19." = b
    cases b <;> rfl
  | arr l =>
    simp only [zipStep]
    rw [zipInner_field]
    simp only [pyIn]
    generalize (l.any (fun v => jsonEqStr v "0.19.")) = b
    cases b <;> rfl
  | obj f =>
    simp only [zipStep]
    rw [zipInner_field]
    simp only [pyIn]
    generalize (f.any (fun kv => kv.1 == "0.19.")) = b
    cases b <;> rfl
  | num n => rfl
  | bool b => rfl
  | null => rfl

/-- The whole extractor call in the `envField j` world decomposes into the
tag listing followed by the single version iteration. -/
theorem create_field (j : JsonVal) :
    create_zipballs_and_descriptions (envField j) "acme/widget" ["1.0.0"] =
      (⟨[.gitTag "/m/acme/widget"], .ok ()⟩ : PyM Unit) >>= fun _ =>
        zipStep (envField j) "/m/acme/widget" "/m/acme/widget/zipball"
          "/m/acme/widget/descriptions" "acme/widget" "1.0.0" >>= fun _ =>
          pure () := by
  cases j <;> rfl

/-- Claim C10 (counterexample): a well-formed descriptor whose
`elm-version` field is the JSON list `["0.19."]` — not a string — still
yields both the description write and the archive write, because Python's
`in` is an element test on lists; the claim allows artifacts only for
string fields containing the substring `0.19.`. -/
theorem c10_counterexample :
    jsonIsString (JsonVal.arr [.str "0.19."]) = false ∧
    (envField (JsonVal.arr [.str "0.19."])).jsonParse "raw elm json" =
      .ok (.obj [("elm-version", .arr [.str "0.19."])]) ∧
    Op.writeFile "/m/acme/widget/descriptions/1.0.0" "raw elm json" ∈
      (create_zipballs_and_descriptions (envField (.arr [.str "0.19."]))
        "acme/widget" ["1.0.0"]).ops ∧
    Op.gitArchive "/m/acme/widget" "acme-widget-abc123/" "/m/acme/widget/zipball/1.0.0" ∈
      (create_zipballs_and_descriptions (envField (.arr [.str "0.19."]))
        "acme/widget" ["1.0.0"]).ops :=
  ⟨rfl, rfl, by decide, by decide⟩

/-- Claim C10 (amended): for a version in both the declared list and the
tag set with a readable well-formed descriptor, artifacts are produced
exactly when Python's `"0.19." in field` succeeds — the field is a string
containing the substring `0.19.`, a list containing the exact string
`"0.19."`, or an object with that key; a descriptor without the field (or
with it null) raises `TypeError`, aborting the package, and in particular
yields no artifacts for that version. -/
theorem c10_amended :
    (∀ j : JsonVal,
      (Op.writeFile "/m/acme/widget/descriptions/1.0.0" "raw elm json" ∈
        (create_zipballs_and_descriptions (envField j) "acme/widget" ["1.0.0"]).ops)
        ↔ pyIn "0.19." (some j) = .ok true) ∧
    (create_zipballs_and_descriptions envNoField "acme/widget" ["1.0.0"]).res =
      .error .typeError ∧
    Op.writeFile "/m/acme/widget/descriptions/1.0.0" "raw elm json" ∉
      (create_zipballs_and_descriptions envNoField "acme/widget" ["1.0.0"]).ops := by
  refine ⟨?_, rfl, by decide⟩
  intro j
  rw [create_field j, zipStep_field j]
  rcases hx : pyIn "0.19." (some j) with e | b
  · have he : e = .typeError := pyIn_err _ _ _ hx
    subst he
    simp [ops_bind, res_bind, ops_pure, res_pure]
  · cases b <;> simp [ops_bind, res_bind, ops_pure, res_pure]


/-! ### Claim C8: the exact language of the name validator -/

/-- Claim C8 (counterexample): `ab/.x` matches the grammar as the claim
words it — the path part consists of alphanumerics, underscores, hyphens,
or dots and has length at least 1 — yet the validator rejects it, because
the regex requires the first path character to be alphanumeric, an
underscore, or a hyphen (a leading dot is not allowed). -/
theorem c8_counterexample :
    specValidName "ab/.x" = true ∧ is_valid_repo_name "ab/.x" = false :=
  ⟨rfl, rfl⟩

/-- `List.contains` on characters agrees with membership. -/
theorem contains_slash_iff (cs : List Char) : cs.contains '/' = true ↔ '/' ∈ cs := by
  induction cs with
  | nil => simp
  | cons a t ih =>
    rw [List.contains_cons, Bool.or_eq_true]
    constructor
    · intro h
      rcases h with h | h
      · rw [eq_of_beq h]
        exact List.mem_cons_self _ _
      · exact List.mem_cons_of_mem a (ih.mp h)
    · intro h
      rcases List.mem_cons.mp h with h | h
      · exact Or.inl (beq_iff_eq.mpr h)
      · exact Or.inr (ih.mpr h)

/-- `splitSlash` finds exactly the decompositions at a unique slash. -/
theorem splitSlash_eq_some (l : List Char) (o p : List Char) :
    splitSlash l = some (o, p) ↔ (l = o ++ '/' :: p ∧ '/' ∉ o ∧ '/' ∉ p) := by
  induction l generalizing o with
  | nil =>
    constructor
    · intro h
      simp [splitSlash] at h
    · rintro ⟨h, -, -⟩
      exact absurd h (by simp)
  | cons c cs ih =>
    by_cases hc : c = '/'
    · subst hc
      rw [show splitSlash ('/' :: cs) =
          (if cs.contains '/' then none else some ([], cs)) from by simp [splitSlash]]
      by_cases hcs : cs.contains '/' = true
      · rw [if_pos hcs]
        constructor
        · intro h
          exact absurd h (by simp)
        · rintro ⟨heq, hno, hnp⟩
          exfalso
          cases o with
          | nil =>
            simp only [List.nil_append] at heq
            injection heq with h1 h2
            subst h2
            exact hnp ((contains_slash_iff cs).mp hcs)
          | cons a o2 =>
            injection heq with h1 h2
            exact hno (by rw [h1]; exact List.mem_cons_self _ _)
      · rw [if_neg hcs]
        constructor
        · intro h
          injection h with h1
          injection h1 with ho hp
          subst ho
          subst hp
          refine ⟨rfl, by simp, ?_⟩
          intro hmem
          exact hcs ((contains_slash_iff cs).mpr hmem)
        · rintro ⟨heq, hno, hnp⟩
          cases o with
          | nil =>
            simp only [List.nil_append] at heq
            injection heq with h1 h2
            rw [h2]
          | cons a o2 =>
            injection heq with h1 h2
            exact absurd (by rw [h1]; exact List.mem_cons_self _ _) hno
    · rw [show splitSlash (c :: cs) =
          (match splitSlash cs with
           | some (o, p) => some (c :: o, p)
           | none => none) from by simp [splitSlash, hc]]
      cases hs : splitSlash cs with
      | none =>
        constructor
        · intro h
          exact absurd h (by simp)
        · rintro ⟨heq, hno, hnp⟩
          exfalso
          cases o with
          | nil =>
            simp only [List.nil_append] at heq
            injection heq with h1 h2
            exact hc h1
          | cons a o2 =>
            injection heq with h1 h2
            subst h1
            have hno2 : '/' ∉ o2 := fun hm => hno (List.mem_cons_of_mem _ hm)
            have hs2 := (ih o2).mpr ⟨h2, hno2, hnp⟩
            rw [hs] at hs2
            exact absurd hs2 (by simp)
      | some op =>
        rcases op with ⟨o2, p2⟩
        constructor
        · intro h
          injection h with h1
          injection h1 with ho hp
          subst ho
          subst hp
          obtain ⟨heq2, hno2, hnp2⟩ := (ih o2).mp hs
          refine ⟨by rw [List.cons_append, heq2], ?_, hnp2⟩
          intro hm
          rcases List.mem_cons.mp hm with hm | hm
          · exact hc hm.symm
          · exact hno2 hm
        · rintro ⟨heq, hno, hnp⟩
          cases o with
          | nil =>
            simp only [List.nil_append] at heq
            injection heq with h1 h2
            exact absurd h1 hc
          | cons a o3 =>
            injection heq with h1 h2
            subst h1
            have hno3 : '/' ∉ o3 := fun hm => hno (List.mem_cons_of_mem _ hm)
            have hs2 := (ih o3).mpr ⟨h2, hno3, hnp⟩
            rw [hs] at hs2
            injection hs2 with h3
            injection h3 with h4 h5
            rw [h4, h5]

/-- The Boolean owner check agrees with the owner grammar. -/
theorem ownerOK_iff (o : List Char) : ownerOK o = true ↔ OwnerGrammar o := by
  unfold ownerOK OwnerGrammar
  rw [Bool.and_eq_true, Bool.and_eq_true, Bool.and_eq_true]
  constructor
  · rintro ⟨⟨⟨hlen, hhead⟩, hlast⟩, hall⟩
    refine ⟨by simpa using hlen, fun c hc => List.all_eq_true.mp hall c hc, ?_, ?_⟩
    · intro c hc
      rw [hc] at hhead
      exact hhead
    · intro c hc
      rw [hc] at hlast
      exact hlast
  · rintro ⟨hlen, hall, hhead, hlast⟩
    have hne : o ≠ [] := by
      intro h
      subst h
      simp at hlen
    refine ⟨⟨⟨by simpa using hlen, ?_⟩, ?_⟩, List.all_eq_true.mpr hall⟩
    · cases hh : o.head? with
      | none =>
        exact absurd (List.head?_eq_none_iff.mp hh) hne
      | some c => exact hhead c hh
    · cases hh : o.getLast? with
      | none =>
        rw [← List.head?_reverse] at hh
        have : o.reverse = [] := List.head?_eq_none_iff.mp hh
        exact absurd (by simpa using this) hne
      | some c => exact hlast c hh

/-- The Boolean path check agrees with the path grammar. -/
theorem pathOK_iff (p : List Char) : pathOK p = true ↔ PathGrammar p := by
  cases p with
  | nil => simp [pathOK, PathGrammar]
  | cons c rest =>
    rw [show pathOK (c :: rest) = (isPathFirst c && rest.all isPathRest) from rfl,
      Bool.and_eq_true]
    constructor
    · rintro ⟨h1, h2⟩
      exact ⟨c, rest, rfl, h1, List.all_eq_true.mp h2⟩
    · rintro ⟨c2, rest2, heq, h1, h2⟩
      injection heq with ha hb
      subst ha
      subst hb
      exact ⟨h1, List.all_eq_true.mpr h2⟩

/-- The owner grammar excludes slashes. -/
theorem ownerGrammar_no_slash {o : List Char} (h : OwnerGrammar o) : '/' ∉ o :=
  fun hm => absurd (h.2.1 '/' hm) (by decide)

/-- The path grammar excludes slashes. -/
theorem pathGrammar_no_slash {p : List Char} (h : PathGrammar p) : '/' ∉ p := by
  obtain ⟨c, rest, rfl, h1, h2⟩ := h
  intro hm
  rcases List.mem_cons.mp hm with hm | hm
  · rw [← hm] at h1
    exact absurd h1 (by decide)
  · exact absurd (h2 '/' hm) (by decide)

/-- Claim C8 (amended): the validator accepts a string iff, after
discarding at most one trailing newline (Python's `$` tolerates one), it
decomposes as `owner/path` where `owner` is alphanumeric-or-hyphen, does
not start or end with a hyphen, and has length at least 2, and `path` is
nonempty, starts with an alphanumeric, underscore or hyphen, and continues
with alphanumerics, underscores, hyphens, or dots. -/
theorem c8_amended (s : String) : is_valid_repo_name s = true ↔ AmendedValid s := by
  unfold is_valid_repo_name reMatchCore AmendedValid
  cases hs : splitSlash (stripNL s.data) with
  | none =>
    constructor
    · intro h
      simp at h
    · rintro ⟨o, p, heq, hog, hpg⟩
      have hs2 : splitSlash (stripNL s.data) = some (o, p) :=
        (splitSlash_eq_some _ o p).mpr
          ⟨heq, ownerGrammar_no_slash hog, pathGrammar_no_slash hpg⟩
      rw [hs] at hs2
      exact absurd hs2 (by simp)
  | some op =>
    rcases op with ⟨o, p⟩
    obtain ⟨heq, hno, hnp⟩ := (splitSlash_eq_some _ o p).mp hs
    rw [Bool.and_eq_true]
    constructor
    · rintro ⟨h1, h2⟩
      exact ⟨o, p, heq, (ownerOK_iff o).mp h1, (pathOK_iff p).mp h2⟩
    · rintro ⟨o2, p2, heq2, hog, hpg⟩
      have hs2 : splitSlash (stripNL s.data) = some (o2, p2) :=
        (splitSlash_eq_some _ o2 p2).mpr
          ⟨heq2, ownerGrammar_no_slash hog, pathGrammar_no_slash hpg⟩
      rw [hs] at hs2
      injection hs2 with h3
      injection h3 with h4 h5
      rw [← h4] at hog
      rw [← h5] at hpg
      exact ⟨(ownerOK_iff o).mpr hog, (pathOK_iff p).mpr hpg⟩

end Elmirror
